import Mathlib

set_option maxHeartbeats 1000000

/-!
Shallow embedding of the SynTactic target-communication layer.

Sources embedded here:
* `SynTacticApp.py` — the response-capture controller
  (`callback_with_text_from_target`, `receive_characters_from_target`),
  the listing parser (`get_target_files_callback`), and the
  upload / download / list-files orchestration slots, modelled as the
  sequence of external actions they perform;
* `terminal.py` — the serial terminal lifecycle
  (`TerminalWidget.connect`, `close_serial_port_and_wait`) and the byte/text
  conversions (`bytes_to_str`, `str_to_bytes`).

Python strings are modelled as `List Char`, bytes as `Nat` values below 256,
and fallible operations (Python exceptions) as `Option`.
-/

/-! ## String utilities (Python `str` methods used by the capture layer) -/

/-- Python `s.startswith(p)` on character lists: `p` is an initial segment of `s`. -/
def startsWith : List Char → List Char → Bool
  | _, [] => true
  | [], _ :: _ => false
  | c :: s, p :: ps => c == p && startsWith s ps

/-- Python `s.find(sub)`: the index of the first occurrence of `sub` in `s`;
`none` models Python's `-1` result. -/
def findSub : List Char → List Char → Option Nat
  | [], pat => if startsWith [] pat then some 0 else none
  | c :: s, pat =>
    if startsWith (c :: s) pat then some 0 else (findSub s pat).map (· + 1)

/-- Characters treated as line boundaries by Python `str.splitlines`. -/
def isLineBreak (c : Char) : Bool :=
  c == '\n' || c == '\r' || c == '\x0b' || c == '\x0c' ||
  c == '\x1c' || c == '\x1d' || c == '\x1e' || c == '\x85' ||
  c == '\u2028' || c == '\u2029'

/-- Accumulator form of Python `str.splitlines(keepends=True)`:
the first argument holds the current (reversed) partial line, the line-break
characters are kept at the end of each emitted line, and a `\r\n` pair counts
as a single boundary. -/
def splitKAux : List Char → List Char → List (List Char)
  | acc, [] => if acc.isEmpty then [] else [acc.reverse]
  | acc, '\r' :: '\n' :: rest => (acc.reverse ++ ['\r', '\n']) :: splitKAux [] rest
  | acc, c :: rest =>
    if isLineBreak c then (acc.reverse ++ [c]) :: splitKAux [] rest
    else splitKAux (c :: acc) rest

/-- Python `s.splitlines(keepends=True)`. -/
def splitlinesKeep (s : List Char) : List (List Char) :=
  splitKAux [] s

/-- Accumulator form of Python `str.splitlines()` (no keepends): like
`splitKAux` but the line-break characters are dropped. -/
def splitNAux : List Char → List Char → List (List Char)
  | acc, [] => if acc.isEmpty then [] else [acc.reverse]
  | acc, '\r' :: '\n' :: rest => acc.reverse :: splitNAux [] rest
  | acc, c :: rest =>
    if isLineBreak c then acc.reverse :: splitNAux [] rest
    else splitNAux (c :: acc) rest

/-- Python `s.splitlines()` (keepends defaulted to False). -/
def splitlinesPy (s : List Char) : List (List Char) :=
  splitNAux [] s

/-- Python `s.strip(chars)`: removes leading and trailing characters belonging
to the set `cs`. -/
def stripChars (cs : List Char) (s : List Char) : List Char :=
  ((s.dropWhile (fun c => cs.contains c)).reverse.dropWhile
      (fun c => cs.contains c)).reverse

/-- Python `files_line.split(sep)` for the four-character separator
quote-comma-space-quote used in `get_target_files_callback`.  The scan is
left-to-right and non-overlapping, as Python's `str.split` is; the first
argument accumulates the current field in reverse. -/
def splitSepAux : List Char → List Char → List (List Char)
  | acc, [] => [acc.reverse]
  | acc, '\x27' :: ',' :: ' ' :: '\x27' :: rest => acc.reverse :: splitSepAux [] rest
  | acc, c :: rest => splitSepAux (c :: acc) rest

/-! ## Response Capture Controller (`SynTacticApp.py` lines 325-353)

The shared instance fields `MainApp.callback`, `MainApp.captured_text` and
`MainApp.ending` form the controller state.  Callbacks are identified by a
`Nat` id; an invocation of the callback is recorded as the pair
(callback id, delivered text) instead of executing arbitrary code. -/

/-- Controller state: the three `MainApp` fields that implement the
single Pending Capture. -/
structure CaptureState where
  callback : Option Nat
  captured_text : List Char
  ending : List Char
deriving DecidableEq

/-- `MainApp.callback_with_text_from_target`: registers a capture.  The
accumulator `captured_text` is reset to the empty string and the callback and
ending are stored, overwriting any pending ones. -/
def callback_with_text_from_target (st : CaptureState) (cb : Option Nat)
    (ending : List Char) : CaptureState :=
  { st with captured_text := [], callback := cb, ending := ending }

/-- `MainApp.receive_characters_from_target`: the slot run on each
notification event.  The chunk is appended to the accumulator; when a callback
is registered, the accumulated text is line-reassembled
(`''.join(text.splitlines(keepends=True))`) and searched for the ending; on a
hit the text strictly before the first occurrence is delivered and the
callback reference is cleared.  The second component records the delivery
(callback id, delivered text), if one happened. -/
def receive_characters_from_target (st : CaptureState) (text : List Char) :
    CaptureState × Option (Nat × List Char) :=
  let ct := st.captured_text ++ text
  match st.callback with
  | none => ({ st with captured_text := ct }, none)
  | some cb =>
    let joined := (splitlinesKeep ct).flatten
    match findSub joined st.ending with
    | none => ({ st with captured_text := ct }, none)
    | some inx =>
      ({ st with captured_text := ct, callback := none },
       some (cb, joined.take inx))

/-- Runs a sequence of notification events through the controller, collecting
every callback invocation in order. -/
def runChunks (st : CaptureState) : List (List Char) → CaptureState × List (Nat × List Char)
  | [] => (st, [])
  | c :: cs =>
    let p := receive_characters_from_target st c
    let q := runChunks p.1 cs
    (q.1, p.2.toList ++ q.2)

/-! ## Listing parser (`MainApp.get_target_files_callback`, lines 645-662) -/

/-- `MainApp.get_target_files_callback`: splits the captured text into lines,
indexes line 1 (`text_lines[1]` — Python raises `IndexError` when the second
line is absent, modelled as `none`), splits that line on the
quote-comma-space-quote separator, and strips `[`, `]` and quote characters
from each field. -/
def get_target_files_callback (text : List Char) : Option (List (List Char)) :=
  let text_lines := splitlinesPy text
  match text_lines.get? 1 with
  | none => none
  | some files_line =>
    some ((splitSepAux [] files_line).map (stripChars ['[', ']', '\x27']))

/-- Effect of `get_target_files_callback` on the `target_files` list widget:
on success the parsed names replace the widget contents
(`clear()` followed by `addItems(...)`); in the `IndexError` case the
exception escapes before `clear()` is reached, so the widget keeps its
previous contents. -/
def get_target_files_update (current : List (List Char)) (text : List Char) :
    List (List Char) :=
  match get_target_files_callback text with
  | none => current
  | some fs => fs

/-! ## Orchestration slots as action traces

`on_upload_button_clicked` (lines 509-574), `on_target_files_itemDoubleClicked`
(lines 366-430) and `on_get_target_files_button_clicked` (lines 576-643) are
straight-line procedures whose effects are calls on the terminal, the ampy
transfer client and the GUI.  They are modelled as the list of external
actions they perform.  `sleep(COMMAND_DELAY)` calls and `processEvents` are
pure timing and are not recorded. -/

/-- External actions performed by the orchestration slots. -/
inductive Act where
  | msg (s : String)
  | save
  | closePort
  | openBoard
  | putFile (name : List Char)
  | getFile (name : List Char)
  | lsFiles
  | closeBoard
  | connectPort
  | sendText (s : List Char)
  | newEditorPage
  | replaceFileList
  | errDiag
deriving DecidableEq

/-- Second component of Python `os.path.split`: the part of the path after the
last separator (the whole string when no separator occurs). -/
def pathBasename (s : List Char) : List Char :=
  (s.reverse.takeWhile (fun c => c ≠ '/')).reverse

/-- `MainApp.on_upload_button_clicked` as its sequence of external actions.
`hasEditor` models `self.tab_widget.currentWidget()` being non-null,
`connected` models `self.terminal.is_connected()`, `havePort` models
`self.port_combo.count()` being non-zero, `transferErr` models a
`PyboardError` raised inside the first `try` block (represented here as
raised by the transfer client after the board is opened), and `reconnectErr`
models an exception raised by `terminal.connect` in the second `try` block. -/
def on_upload_button_clicked (filename : List Char)
    (hasEditor connected havePort transferErr reconnectErr : Bool) : List Act :=
  if hasEditor = false then []
  else if startsWith (pathBasename filename) ['['] then
    [Act.msg "Cannot Upload a downloaded file. Save it first."]
  else
    Act.save ::
    (if connected && havePort then
      [Act.msg "Preparing to Upload...", Act.closePort] ++
      (if transferErr then [Act.openBoard, Act.errDiag]
       else [Act.openBoard, Act.msg "Uploading...",
             Act.putFile (pathBasename filename), Act.closeBoard,
             Act.msg "Uploaded. Reopening COM port..."]) ++
      (if reconnectErr then [Act.connectPort, Act.msg "Could not connect"]
       else [Act.connectPort, Act.sendText ['\r'], Act.replaceFileList])
     else [])

/-- `MainApp.on_target_files_itemDoubleClicked` (the download path) as its
sequence of external actions.  The flags are as in
`on_upload_button_clicked`; `hasItem` models the double-clicked list item
being non-null and `itemName` its text. -/
def on_target_files_itemDoubleClicked (itemName : List Char)
    (hasItem connected havePort transferErr reconnectErr : Bool) : List Act :=
  if hasItem = false then []
  else if connected && havePort then
    [Act.msg "Preparing to Download...", Act.closePort] ++
    (if transferErr then [Act.openBoard, Act.errDiag]
     else [Act.openBoard, Act.msg "Downloading...", Act.getFile itemName,
           Act.newEditorPage, Act.closeBoard,
           Act.msg "Downloaded. Reopening COM port..."]) ++
    (if reconnectErr then [Act.connectPort, Act.msg "Could not connect"]
     else [Act.connectPort, Act.sendText ['\r']])
  else []

/-- `MainApp.on_get_target_files_button_clicked` (the list-files path) as its
sequence of external actions.  On the error path the locally accumulated
`target_files` list is empty, so `replaceFileList` replaces the widget
contents with the empty list; the widget update happens inside the second
`try` block, after the reconnect. -/
def on_get_target_files_button_clicked
    (connected havePort transferErr reconnectErr : Bool) : List Act :=
  if connected then
    if connected && havePort then
      [Act.msg "Preparing to list files...", Act.closePort] ++
      (if transferErr then [Act.openBoard, Act.errDiag]
       else [Act.openBoard, Act.msg "Getting file list...", Act.lsFiles,
             Act.closeBoard, Act.msg "Reopening COM port..."]) ++
      (if reconnectErr then [Act.connectPort, Act.msg "Could not connect"]
       else [Act.connectPort, Act.sendText ['\r'], Act.replaceFileList])
    else []
  else [Act.msg "Disconnected!"]

/-! ## UTF-8 round trip (upload encodes, download decodes)

`on_upload_button_clicked` sends `content.encode('utf-8')` through the ampy
`put` call and `on_target_files_itemDoubleClicked` decodes the bytes fetched
by the ampy `get` call with `.decode('utf-8')`.  The encoder and the (strict,
overlong- and surrogate-rejecting) decoder below are the UTF-8 codec those
Python calls use, over `Nat` byte values. -/

/-- UTF-8 encoding of one unicode scalar value. -/
def utf8EncodeChar (n : Nat) : List Nat :=
  if n < 0x80 then [n]
  else if n < 0x800 then [0xC0 + n / 0x40, 0x80 + n % 0x40]
  else if n < 0x10000 then
    [0xE0 + n / 0x1000, 0x80 + n / 0x40 % 0x40, 0x80 + n % 0x40]
  else
    [0xF0 + n / 0x40000, 0x80 + n / 0x1000 % 0x40,
     0x80 + n / 0x40 % 0x40, 0x80 + n % 0x40]

/-- Python `s.encode('utf-8')` over a list of characters. -/
def utf8Encode (s : List Char) : List Nat :=
  (s.map (fun c => utf8EncodeChar c.toNat)).flatten

/-- Python `bs.decode('utf-8')`, one scalar value at a time: decodes the
UTF-8 sequence at the head of the byte list, returning the code point and the
remaining bytes; `none` models `UnicodeDecodeError` (stray or missing
continuation bytes, overlong forms, surrogates, out-of-range values). -/
def utf8DecodeOne : List Nat → Option (Nat × List Nat)
  | [] => none
  | b0 :: bs =>
    if b0 < 0x80 then some (b0, bs)
    else if b0 < 0xC0 then none
    else if b0 < 0xE0 then
      match bs with
      | b1 :: bs1 =>
        if 0x80 ≤ b1 ∧ b1 < 0xC0 then
          if 0x80 ≤ (b0 - 0xC0) * 0x40 + (b1 - 0x80) then
            some ((b0 - 0xC0) * 0x40 + (b1 - 0x80), bs1)
          else none
        else none
      | [] => none
    else if b0 < 0xF0 then
      match bs with
      | b1 :: b2 :: bs2 =>
        if (0x80 ≤ b1 ∧ b1 < 0xC0) ∧ (0x80 ≤ b2 ∧ b2 < 0xC0) then
          let n := (b0 - 0xE0) * 0x1000 + (b1 - 0x80) * 0x40 + (b2 - 0x80)
          if 0x800 ≤ n ∧ ¬(0xD800 ≤ n ∧ n < 0xE000) then some (n, bs2) else none
        else none
      | _ => none
    else if b0 < 0xF8 then
      match bs with
      | b1 :: b2 :: b3 :: bs3 =>
        if (0x80 ≤ b1 ∧ b1 < 0xC0) ∧ (0x80 ≤ b2 ∧ b2 < 0xC0) ∧
            (0x80 ≤ b3 ∧ b3 < 0xC0) then
          let n := (b0 - 0xF0) * 0x40000 + (b1 - 0x80) * 0x1000 +
                     (b2 - 0x80) * 0x40 + (b3 - 0x80)
          if 0x10000 ≤ n ∧ n < 0x110000 then some (n, bs3) else none
        else none
      | _ => none
    else none

/-- Decoding loop: repeatedly strips one UTF-8 sequence.  Every decoded
scalar consumes at least one byte, so a fuel of the byte-list length always
suffices; the fuel only makes the recursion structural. -/
def utf8DecodeLoop : Nat → List Nat → Option (List Nat)
  | _, [] => some []
  | 0, _ :: _ => none
  | fuel + 1, b0 :: bs =>
    match utf8DecodeOne (b0 :: bs) with
    | none => none
    | some (n, rest) => (utf8DecodeLoop fuel rest).map (n :: ·)

/-- Python `bs.decode('utf-8')`, returning the decoded code points;
`none` models `UnicodeDecodeError`. -/
def utf8DecodeNums (bs : List Nat) : Option (List Nat) :=
  utf8DecodeLoop bs.length bs

/-- Modelled from the spec: the binary transfer protocol surface of section 6
(`put(name, bytes)` writes raw byte content under a name, `get(name)` fetches
it).  The ampy library implementing it is an external collaborator, not part
of this repository; the remote file system is an association list with the
newest write first. -/
def RemoteFS : Type := List (List Char × List Nat)

/-- Modelled from the spec: `put(name, bytes)` — write raw byte content. -/
def ampy_put (fs : RemoteFS) (name : List Char) (data : List Nat) : RemoteFS :=
  (name, data) :: fs

/-- Modelled from the spec: `get(name)` — fetch the raw byte content stored
under `name`. -/
def ampy_get (fs : RemoteFS) (name : List Char) : Option (List Nat) :=
  match fs with
  | [] => none
  | (k, v) :: rest => if k = name then some v else ampy_get rest name

/-- Data path of the upload slot: `self.ampy.put(filename,
content.encode('utf-8'))`. -/
def upload_content (fs : RemoteFS) (name : List Char) (content : List Char) :
    RemoteFS :=
  ampy_put fs name (utf8Encode content)

/-- Data path of the download slot: `self.ampy.get(...)` followed by
`downloaded_text.decode('utf-8')` appended into a fresh editor page; the
result is the sequence of code points shown in the new page. -/
def download_content (fs : RemoteFS) (name : List Char) : Option (List Nat) :=
  match ampy_get fs name with
  | none => none
  | some bs => utf8DecodeNums bs

/-! ## Terminal lifecycle (`terminal.py`) -/

/-- State of one `SerialThread` worker: `running` is the loop-control flag set
to `False` to request termination, `finished` records that the `run` method
has exited, and `ser_open` that the serial device handle is still held (the
loop closes it on exit). -/
structure SerialThreadSt where
  running : Bool
  finished : Bool
  ser_open : Bool
deriving DecidableEq

/-- State of a `TerminalWidget`: the `serial_thread` attribute, absent until
the first `connect` call (accessing it then raises `AttributeError`). -/
structure TermSt where
  serial_thread : Option SerialThreadSt
deriving DecidableEq

/-- `TerminalWidget.close_serial_port_and_wait`: sets `running = False` on the
worker and blocks in `wait()` until the thread has terminated, which closes
the device handle; when the `serial_thread` attribute does not exist the
`AttributeError` is caught and nothing happens. -/
def close_serial_port_and_wait (st : TermSt) : TermSt :=
  match st.serial_thread with
  | none => st
  | some _ =>
    { serial_thread := some { running := false, finished := true, ser_open := false } }

/-! ## Application-level connection lifecycle (claim C8)

Worker threads are given `Nat` ids; `owned` is the thread currently referenced
by `self.serial_thread`, `alive` the ids of workers whose `run` method has not
exited, and `next` a fresh-id counter.  `TerminalWidget.connect` itself never
closes anything — it just overwrites `serial_thread` with a freshly started
worker — so closing is modelled only where the application calls
`close_serial_port_and_wait`. -/

/-- Thread bookkeeping for the whole application. -/
structure ConnState where
  owned : Option Nat
  alive : List Nat
  next : Nat
deriving DecidableEq

/-- Effect of `close_serial_port_and_wait` on the thread bookkeeping: the
owned worker (if the attribute exists) is stopped and waited out. -/
def closeWaitC (s : ConnState) : ConnState :=
  match s.owned with
  | none => s
  | some t => { s with alive := s.alive.erase t }

/-- Effect of `TerminalWidget.connect`: start a fresh `SerialThread` and
overwrite `self.serial_thread` with it (lines 128-134 of `terminal.py`; note
there is no closing here). -/
def connectC (s : ConnState) : ConnState :=
  { owned := some s.next, alive := s.next :: s.alive, next := s.next + 1 }

/-- `TerminalWidget.is_connected`: the owned worker exists and is running. -/
def is_connectedC (s : ConnState) : Bool :=
  match s.owned with
  | none => false
  | some t => s.alive.contains t

/-- The application operations that touch the connection lifecycle.  The
`havePort` flags model `self.port_combo.count()` being non-zero; `threadExit`
models a worker terminating on its own (e.g. its serial port failed to open);
`passiveOp` covers every slot that sends without touching the lifecycle
(run file, delete file, run editor content, key presses). -/
inductive AppOp where
  | connectBtn (havePort : Bool)
  | disconnectBtn
  | uploadBtn (havePort : Bool)
  | downloadDbl (havePort : Bool)
  | listFilesBtn (havePort : Bool)
  | threadExit (t : Nat)
  | passiveOp
deriving DecidableEq

/-- One application operation, read off the four call sites: the connect
button closes then (given a port) connects; the disconnect button closes; the
three transfer slots close, run the transfer, and reconnect, but only when
already connected with a port available. -/
def applyOp (s : ConnState) : AppOp → ConnState
  | .connectBtn hp =>
    if hp then connectC (closeWaitC s) else closeWaitC s
  | .disconnectBtn => closeWaitC s
  | .uploadBtn hp =>
    if is_connectedC s && hp then connectC (closeWaitC s) else s
  | .downloadDbl hp =>
    if is_connectedC s && hp then connectC (closeWaitC s) else s
  | .listFilesBtn hp =>
    if is_connectedC s && hp then connectC (closeWaitC s) else s
  | .threadExit t => { s with alive := s.alive.erase t }
  | .passiveOp => s

/-- Initial application state: no worker thread was ever created. -/
def initConn : ConnState :=
  { owned := none, alive := [], next := 0 }

/-- The state after a sequence of application operations. -/
def runOps (ops : List AppOp) : ConnState :=
  ops.foldl applyOp initConn

/-! ## Byte/text conversions (`terminal.py` lines 61-68) -/

/-- `terminal.bytes_to_str`: the inbound conversion
`"".join([chr(b) for b in d])` applied to a bytes value (the `str` branch of
the source is never taken for data read from the serial device). -/
def bytes_to_str (d : List Nat) : List Char :=
  d.map Char.ofNat

/-- `terminal.str_to_bytes`: Python `s.encode('latin-1')`; `none` models the
`UnicodeEncodeError` raised when a character is above `U+00FF`. -/
def str_to_bytes (s : List Char) : Option (List Nat) :=
  if s.all (fun c => c.toNat < 256) then some (s.map Char.toNat) else none

/-! ## Lemmas about the string utilities -/

theorem startsWith_length : ∀ {s p : List Char}, startsWith s p = true → p.length ≤ s.length
  | _, [], _ => by simp
  | [], _ :: _, h => by simp [startsWith] at h
  | c :: s, q :: ps, h => by
    simp only [startsWith, Bool.and_eq_true] at h
    have := startsWith_length (s := s) (p := ps) h.2
    simpa using Nat.succ_le_succ this

theorem startsWith_append_left : ∀ (s t p : List Char), p.length ≤ s.length →
    startsWith (s ++ t) p = startsWith s p
  | _, _, [], _ => by simp [startsWith]
  | [], _, q :: ps, h => by simp at h
  | c :: s, t, q :: ps, h => by
    simp only [List.cons_append, startsWith, List.append_eq]
    rw [startsWith_append_left s t ps (by simpa using Nat.le_of_succ_le_succ h)]

theorem startsWith_append_of {s p : List Char} (t : List Char)
    (h : startsWith s p = true) : startsWith (s ++ t) p = true := by
  rw [startsWith_append_left s t p (startsWith_length h)]
  exact h

theorem take_append_of_le : ∀ (i : Nat) (l₁ l₂ : List Char), i ≤ l₁.length →
    (l₁ ++ l₂).take i = l₁.take i
  | 0, _, _, _ => by simp
  | i + 1, [], _, h => by simp at h
  | i + 1, a :: l₁, l₂, h => by
    simp only [List.cons_append, List.take_succ_cons]
    rw [take_append_of_le i l₁ l₂ (by simpa using Nat.le_of_succ_le_succ h)]

theorem findSub_bound : ∀ {s p : List Char} {i : Nat},
    findSub s p = some i → i + p.length ≤ s.length := by
  intro s
  induction s with
  | nil =>
    intro p i h
    simp only [findSub] at h
    split at h
    · cases h
      have hl := startsWith_length (by assumption)
      simp only [List.length_nil] at hl ⊢
      omega
    · cases h
  | cons c s ih =>
    intro p i h
    simp only [findSub] at h
    split at h
    · cases h
      simpa using startsWith_length (by assumption)
    · cases hf : findSub s p with
      | none => rw [hf] at h; simp at h
      | some j =>
        rw [hf] at h
        simp only [Option.map_some'] at h
        cases h
        have := ih hf
        simp only [List.length_cons]
        omega

theorem findSub_append : ∀ {s : List Char} (t : List Char) {p : List Char} {i : Nat},
    findSub s p = some i → findSub (s ++ t) p = some i := by
  intro s
  induction s with
  | nil =>
    intro t p i h
    simp only [findSub] at h
    split at h
    · cases h
      have hp : p = [] := by
        have hl := startsWith_length (by assumption)
        simp only [List.length_nil, Nat.le_zero, List.length_eq_zero] at hl
        exact hl
      subst hp
      cases t with
      | nil => simp [findSub, startsWith]
      | cons a t' => simp [findSub, startsWith]
    · cases h
  | cons c s ih =>
    intro t p i h
    simp only [findSub] at h
    split at h
    · cases h
      have hs2 : startsWith ((c :: s) ++ t) p = true :=
        startsWith_append_of t (by assumption)
      simp only [List.cons_append] at hs2 ⊢
      simp [findSub, hs2]
    · rename_i hs
      cases hf : findSub s p with
      | none => rw [hf] at h; simp at h
      | some j =>
        rw [hf] at h
        simp only [Option.map_some'] at h
        cases h
        have hb := findSub_bound hf
        have hlen : p.length ≤ (c :: s).length := by
          simp only [List.length_cons]; omega
        have hsw : startsWith ((c :: s) ++ t) p = startsWith (c :: s) p :=
          startsWith_append_left _ _ _ hlen
        have hs' : ¬ startsWith ((c :: s) ++ t) p = true := by
          rw [hsw]; exact hs
        simp only [List.cons_append] at hs' ⊢
        simp only [findSub, List.append_eq]
        rw [if_neg hs', ih t hf]
        rfl

theorem splitKAux_flatten (acc s : List Char) :
    (splitKAux acc s).flatten = acc.reverse ++ s := by
  induction acc, s using splitKAux.induct <;>
    simp_all [splitKAux, List.isEmpty_iff]

theorem splitlinesKeep_flatten (s : List Char) : (splitlinesKeep s).flatten = s := by
  simpa using splitKAux_flatten [] s

/-- The line-reassembly in `receive_characters_from_target` is the identity, so
the slot reduces to: append, search, deliver the prefix. -/
theorem receive_eq (st : CaptureState) (t : List Char) :
    receive_characters_from_target st t =
      match st.callback with
      | none => ({ st with captured_text := st.captured_text ++ t }, none)
      | some cb =>
        match findSub (st.captured_text ++ t) st.ending with
        | none => ({ st with captured_text := st.captured_text ++ t }, none)
        | some inx =>
          ({ st with captured_text := st.captured_text ++ t, callback := none },
           some (cb, (st.captured_text ++ t).take inx)) := by
  unfold receive_characters_from_target
  simp only [splitlinesKeep_flatten]

theorem runChunks_none_deliveries : ∀ (cs : List (List Char)) (st : CaptureState),
    st.callback = none → (runChunks st cs).2 = [] := by
  intro cs
  induction cs with
  | nil => intro st h; rfl
  | cons c cs ih =>
    intro st h
    simp only [runChunks, receive_eq, h]
    simp only [Option.toList_none, List.nil_append]
    exact ih _ rfl

theorem runChunks_deliveries_of_callback :
    ∀ (cs : List (List Char)) (st : CaptureState) (cb : Nat), st.callback = some cb →
      ((runChunks st cs).2.all (fun d => d.1 == cb)) = true := by
  intro cs
  induction cs with
  | nil => intro st cb h; rfl
  | cons c cs ih =>
    intro st cb h
    simp only [runChunks, receive_eq, h]
    cases hf : findSub (st.captured_text ++ c) st.ending with
    | none =>
      simp only [hf, Option.toList_none, List.nil_append]
      exact ih _ cb rfl
    | some inx =>
      simp only [hf, Option.toList_some, List.singleton_append, List.all_cons]
      rw [runChunks_none_deliveries cs _ rfl]
      simp

theorem runChunks_length_le_one : ∀ (cs : List (List Char)) (st : CaptureState),
    (runChunks st cs).2.length ≤ 1 := by
  intro cs
  induction cs with
  | nil => intro st; simp [runChunks]
  | cons c cs ih =>
    intro st
    simp only [runChunks]
    cases hcb : st.callback with
    | none =>
      rw [receive_eq, hcb]
      simp only [Option.toList_none, List.nil_append]
      exact ih _
    | some cb =>
      rw [receive_eq, hcb]
      cases hf : findSub (st.captured_text ++ c) st.ending with
      | none =>
        simp only [hf, Option.toList_none, List.nil_append]
        exact ih _
      | some inx =>
        simp only [hf, Option.toList_some, List.singleton_append, List.length_cons]
        rw [runChunks_none_deliveries cs _ rfl]
        simp

theorem runChunks_sentinel : ∀ (cs : List (List Char)) (acc e : List Char) (cb i : Nat),
    findSub acc e = none →
    findSub (acc ++ cs.flatten) e = some i →
    (runChunks ⟨some cb, acc, e⟩ cs).2 = [(cb, (acc ++ cs.flatten).take i)] := by
  intro cs
  induction cs with
  | nil =>
    intro acc e cb i h0 h1
    rw [List.flatten_nil, List.append_nil] at h1
    rw [h0] at h1
    cases h1
  | cons c cs ih =>
    intro acc e cb i h0 h1
    have hflat : (c :: cs).flatten = c ++ cs.flatten := by simp
    simp only [runChunks, receive_eq]
    cases hf : findSub (acc ++ c) e with
    | none =>
      simp only [hf, Option.toList_none, List.nil_append]
      have h1' : findSub ((acc ++ c) ++ cs.flatten) e = some i := by
        rw [List.append_assoc, ← hflat]
        exact h1
      have := ih (acc ++ c) e cb i hf h1'
      rw [this]
      rw [hflat, ← List.append_assoc]
    | some j =>
      have hj : findSub ((acc ++ c) ++ cs.flatten) e = some j := findSub_append _ hf
      rw [List.append_assoc, ← hflat] at hj
      have hij : j = i := by
        rw [h1] at hj
        exact (Option.some.inj hj).symm
      subst hij
      simp only [hf, Option.toList_some, List.singleton_append]
      rw [runChunks_none_deliveries cs _ rfl]
      have hb := findSub_bound hf
      have htake : (acc ++ (c :: cs).flatten).take j = (acc ++ c).take j := by
        rw [hflat, ← List.append_assoc]
        exact take_append_of_le j (acc ++ c) cs.flatten (by omega)
      rw [htake]

/-- C1: for every sequence of notification chunks whose concatenation contains
the sentinel, the capture controller delivers to the registered callback
exactly the prefix of the accumulated text strictly before the sentinel's
first occurrence, and since the delivered list depends only on the
concatenation `chunks.flatten`, it is the same for every way of splitting the
stream into chunks (including a sentinel split across two chunks). -/
theorem sentinel_framing (st : CaptureState) (cb : Nat) (e : List Char)
    (chunks : List (List Char)) (i : Nat) (he : e ≠ [])
    (hocc : findSub chunks.flatten e = some i) :
    (runChunks (callback_with_text_from_target st (some cb) e) chunks).2
      = [(cb, chunks.flatten.take i)] := by
  have h0 : findSub [] e = none := by
    cases e with
    | nil => exact absurd rfl he
    | cons q ps => simp [findSub, startsWith]
  have h := runChunks_sentinel chunks [] e cb i h0 (by simpa using hocc)
  simpa [callback_with_text_from_target] using h

/-- Witness for `sentinel_framing`: the sentinel `>>` is split across the two
chunks `a>` and `>b`; the delivered capture is exactly `a`. -/
theorem sentinel_framing_witness :
    (runChunks (callback_with_text_from_target ⟨none, [], []⟩ (some 0) ['>', '>'])
        [['a', '>'], ['>', 'b']]).2 = [(0, ['a'])] :=
  sentinel_framing ⟨none, [], []⟩ 0 ['>', '>'] [['a', '>'], ['>', 'b']] 1
    (by decide) (by decide)

/-- C2: registering a capture while another is pending leaves exactly one
Pending Capture active (the newest: the single `callback` field now holds the
new id), resets the accumulator to the empty string at the moment of
registration, and every delivery produced by any later sequence of
notification events carries the new callback id — the superseded callback is
never invoked afterwards. -/
theorem capture_supersede (st : CaptureState) (cb2 : Nat) (e2 : List Char)
    (cs : List (List Char)) :
    (callback_with_text_from_target st (some cb2) e2).captured_text = []
    ∧ (callback_with_text_from_target st (some cb2) e2).callback = some cb2
    ∧ ((runChunks (callback_with_text_from_target st (some cb2) e2) cs).2.all
        (fun d => d.1 == cb2)) = true := by
  refine ⟨rfl, rfl, ?_⟩
  exact runChunks_deliveries_of_callback cs _ cb2 rfl

/-- C3: after a single registration the callback is invoked at most once over
any sequence of notification events, and whenever one call of the receiving
slot delivers, that same call clears the callback reference. -/
theorem capture_at_most_once (st : CaptureState) (cb : Option Nat)
    (e : List Char) (cs : List (List Char)) (st2 : CaptureState) (t : List Char) :
    (runChunks (callback_with_text_from_target st cb e) cs).2.length ≤ 1
    ∧ ((receive_characters_from_target st2 t).2.isNone = true
        ∨ (receive_characters_from_target st2 t).1.callback.isNone = true) := by
  constructor
  · exact runChunks_length_le_one cs _
  · rw [receive_eq]
    cases hcb : st2.callback with
    | none => simp
    | some cb2 =>
      cases hf : findSub (st2.captured_text ++ t) st2.ending with
      | none => simp [hf]
      | some inx => simp [hf]

/-- Counterexample to C4 as stated: on captured text with no second line the
listing operation does not fail silently with an empty list — the line
indexing errors out (`IndexError`, modelled `none`) and the previous
in-memory file list is kept rather than replaced by the empty list. -/
theorem get_target_files_no_empty_list :
    get_target_files_callback ['o', 'k'] = none
    ∧ get_target_files_update [['o', 'l', 'd']] ['o', 'k'] = [['o', 'l', 'd']]
    ∧ [['o', 'l', 'd']] ≠ ([] : List (List Char)) := by
  decide

/-- C4 (amended): on delivery of a captured listing response, the list
operation parses the second line of the captured text as a delimited list of
quoted names, strips quoting and bracket characters, and replaces the current
in-memory file list; if the captured text has no second line, the operation
raises an uncaught IndexError and the in-memory list is left unchanged
(it does not become empty). -/
theorem get_target_files_second_line (current : List (List Char)) (text : List Char) :
    ((splitlinesPy text).get? 1 = none →
      get_target_files_callback text = none
      ∧ get_target_files_update current text = current)
    ∧ (∀ fl, (splitlinesPy text).get? 1 = some fl →
      get_target_files_callback text
          = some ((splitSepAux [] fl).map (stripChars ['[', ']', '\x27']))
      ∧ get_target_files_update current text
          = (splitSepAux [] fl).map (stripChars ['[', ']', '\x27'])) := by
  constructor
  · intro h
    rw [List.get?_eq_getElem?] at h
    constructor
    · simp [get_target_files_callback, h]
    · simp [get_target_files_update, get_target_files_callback, h]
  · intro fl h
    rw [List.get?_eq_getElem?] at h
    constructor <;>
      simp [get_target_files_callback, get_target_files_update, h]

/-- Witness for `get_target_files_second_line` on a captured listing whose
second line holds two quoted names: the widget contents are replaced by the
stripped names. -/
theorem get_target_files_second_line_witness :
    get_target_files_update [['x']]
        ['o', 'k', '\n', '[', '\x27', 'b', '.', 'p', 'y', '\x27', ',', ' ',
         '\x27', 'm', '.', 'p', 'y', '\x27', ']', '\n']
      = [['b', '.', 'p', 'y'], ['m', '.', 'p', 'y']] := by
  have h := ((get_target_files_second_line [['x']]
      ['o', 'k', '\n', '[', '\x27', 'b', '.', 'p', 'y', '\x27', ',', ' ',
       '\x27', 'm', '.', 'p', 'y', '\x27', ']', '\n']).2
      ['[', '\x27', 'b', '.', 'p', 'y', '\x27', ',', ' ',
       '\x27', 'm', '.', 'p', 'y', '\x27', ']'] (by decide)).2
  rw [h]
  decide

theorem pathBasename_no_slash (s : List Char) (h : '/' ∉ s) : pathBasename s = s := by
  unfold pathBasename
  rw [List.takeWhile_eq_self_iff.mpr ?_]
  · simp
  · intro a ha
    simp only [ne_eq, decide_eq_true_eq]
    intro heq
    subst heq
    exact h (List.mem_reverse.mp ha)

/-- C5: a document whose filename carries the bracketed remote-origin marker
(a `[name]` tag; such tags contain no path separator) is rejected by the
upload slot before anything else happens: the produced action trace is
exactly the printed diagnostic — no save, no serial-port close, no
transfer-client call, no reconnect and no send occur. -/
theorem upload_rejects_bracketed (filename : List Char)
    (connected havePort transferErr reconnectErr : Bool)
    (h1 : filename.head? = some '[') (h2 : '/' ∉ filename) :
    on_upload_button_clicked filename true connected havePort transferErr reconnectErr
      = [Act.msg "Cannot Upload a downloaded file. Save it first."] := by
  unfold on_upload_button_clicked
  rw [pathBasename_no_slash filename h2]
  cases filename with
  | nil => simp at h1
  | cons c rest =>
    simp only [List.head?_cons, Option.some.injEq] at h1
    subst h1
    simp [startsWith]

/-- Witness for `upload_rejects_bracketed` at the filename tag of a
downloaded file. -/
theorem upload_rejects_bracketed_witness :
    on_upload_button_clicked ['[', 'm', '.', 'p', 'y', ']'] true true true false false
      = [Act.msg "Cannot Upload a downloaded file. Save it first."] :=
  upload_rejects_bracketed ['[', 'm', '.', 'p', 'y', ']'] true true false false
    (by decide) (by decide)

/-- C9: for each binary-transfer slot (upload, download, list files), whether
the transfer succeeds (`e = false`) or raises a board error (`e = true`), the
trace still contains the reconnect step — reopening the serial port and
sending a carriage return — and in the error case it also contains the
printed diagnostic. -/
theorem transfer_restores_session (e : Bool) (fname item : List Char)
    (hf : startsWith (pathBasename fname) ['['] = false) :
    (Act.connectPort ∈ on_upload_button_clicked fname true true true e false
      ∧ Act.sendText ['\r'] ∈ on_upload_button_clicked fname true true true e false)
    ∧ (Act.connectPort ∈ on_target_files_itemDoubleClicked item true true true e false
      ∧ Act.sendText ['\r'] ∈ on_target_files_itemDoubleClicked item true true true e false)
    ∧ (Act.connectPort ∈ on_get_target_files_button_clicked true true e false
      ∧ Act.sendText ['\r'] ∈ on_get_target_files_button_clicked true true e false)
    ∧ (e = true →
        Act.errDiag ∈ on_upload_button_clicked fname true true true e false
        ∧ Act.errDiag ∈ on_target_files_itemDoubleClicked item true true true e false
        ∧ Act.errDiag ∈ on_get_target_files_button_clicked true true e false) := by
  cases e <;>
    simp [on_upload_button_clicked, on_target_files_itemDoubleClicked,
      on_get_target_files_button_clicked, hf]

/-- Witness for `transfer_restores_session` in the failing-transfer case. -/
theorem transfer_restores_session_witness :
    Act.connectPort ∈ on_upload_button_clicked ['m'] true true true true false
      ∧ Act.errDiag ∈ on_get_target_files_button_clicked true true true false := by
  have h := transfer_restores_session true ['m'] ['b'] (by decide)
  exact ⟨h.1.1, (h.2.2.2 rfl).2.2⟩

/-- C7: disconnect-and-wait with no worker thread returns without error (the
operation is total) and is a no-op on the state; with a worker present it
returns only with the worker terminated and the device handle released; and
the operation is idempotent. -/
theorem close_serial_spec (st : TermSt) :
    (st.serial_thread = none → close_serial_port_and_wait st = st)
    ∧ (∀ t, st.serial_thread = some t →
        (close_serial_port_and_wait st).serial_thread
          = some { running := false, finished := true, ser_open := false })
    ∧ close_serial_port_and_wait (close_serial_port_and_wait st)
        = close_serial_port_and_wait st := by
  obtain ⟨th⟩ := st
  refine ⟨?_, ?_, ?_⟩
  · intro h
    simp only at h
    rw [h]
    rfl
  · intro t h
    simp only at h
    rw [h]
    rfl
  · cases th <;> rfl

/-- Witness for `close_serial_spec`: no-op on the never-connected state, and
full shutdown of a live worker. -/
theorem close_serial_spec_witness :
    close_serial_port_and_wait ⟨none⟩ = ⟨none⟩
    ∧ (close_serial_port_and_wait ⟨some ⟨true, false, true⟩⟩).serial_thread
        = some ⟨false, true, false⟩ :=
  ⟨(close_serial_spec ⟨none⟩).1 rfl,
   (close_serial_spec ⟨some ⟨true, false, true⟩⟩).2.1 ⟨true, false, true⟩ rfl⟩

theorem closeWaitC_alive (s : ConnState)
    (h : s.alive = [] ∨ ∃ t, s.owned = some t ∧ s.alive = [t]) :
    (closeWaitC s).alive = [] := by
  unfold closeWaitC
  cases ho : s.owned with
  | none =>
    rcases h with h | ⟨t, ht, _⟩
    · exact h
    · rw [ho] at ht; cases ht
  | some t =>
    rcases h with h | ⟨u, hu, ha⟩
    · simp [h]
    · rw [ho] at hu
      cases hu
      simp [ha]

theorem closeWaitC_owned (s : ConnState) : (closeWaitC s).owned = s.owned := by
  unfold closeWaitC
  cases ho : s.owned with
  | none => exact ho
  | some t => rfl

theorem applyOp_inv (s : ConnState) (op : AppOp)
    (h : s.alive = [] ∨ ∃ t, s.owned = some t ∧ s.alive = [t]) :
    (applyOp s op).alive = [] ∨
      ∃ t, (applyOp s op).owned = some t ∧ (applyOp s op).alive = [t] := by
  have hc := closeWaitC_alive s h
  cases op with
  | connectBtn hp =>
    cases hp
    · exact Or.inl (by simpa [applyOp] using hc)
    · refine Or.inr ⟨(closeWaitC s).next, ?_, ?_⟩ <;> simp [applyOp, connectC, hc]
  | disconnectBtn => exact Or.inl (by simpa [applyOp] using hc)
  | uploadBtn hp =>
    simp only [applyOp]
    by_cases hcon : is_connectedC s && hp
    · rw [if_pos hcon]
      exact Or.inr ⟨(closeWaitC s).next, by simp [connectC], by simp [connectC, hc]⟩
    · rw [if_neg hcon]
      exact h
  | downloadDbl hp =>
    simp only [applyOp]
    by_cases hcon : is_connectedC s && hp
    · rw [if_pos hcon]
      exact Or.inr ⟨(closeWaitC s).next, by simp [connectC], by simp [connectC, hc]⟩
    · rw [if_neg hcon]
      exact h
  | listFilesBtn hp =>
    simp only [applyOp]
    by_cases hcon : is_connectedC s && hp
    · rw [if_pos hcon]
      exact Or.inr ⟨(closeWaitC s).next, by simp [connectC], by simp [connectC, hc]⟩
    · rw [if_neg hcon]
      exact h
  | threadExit u =>
    rcases h with h | ⟨t, ht, ha⟩
    · exact Or.inl (by simp [applyOp, h])
    · by_cases hu : t = u
      · subst hu
        exact Or.inl (by simp [applyOp, ha])
      · refine Or.inr ⟨t, by simp [applyOp, ht], ?_⟩
        have hne : (t == u) = false := beq_eq_false_iff_ne.mpr hu
        simp [applyOp, ha, List.erase_cons, hne]
  | passiveOp => exact h

theorem foldl_inv : ∀ (ops : List AppOp) (s : ConnState),
    (s.alive = [] ∨ ∃ t, s.owned = some t ∧ s.alive = [t]) →
    ((ops.foldl applyOp s).alive = [] ∨
      ∃ t, (ops.foldl applyOp s).owned = some t ∧ (ops.foldl applyOp s).alive = [t]) := by
  intro ops
  induction ops with
  | nil => intro s h; exact h
  | cons op ops ih =>
    intro s h
    exact ih _ (applyOp_inv s op h)

/-- C8: after every sequence of application operations, at most one worker
thread is alive (and hence at most one serial connection is open, each live
worker owning exactly one handle): every opening operation first closes and
waits out the existing connection before starting a new serial thread. -/
theorem single_connection_invariant (ops : List AppOp) :
    (runOps ops).alive.length ≤ 1 := by
  have h := foldl_inv ops initConn (Or.inl rfl)
  unfold runOps
  rcases h with h | ⟨t, _, h⟩ <;> rw [h] <;> simp

theorem toNat_ofNat_valid {n : Nat} (h : n.isValidChar) : (Char.ofNat n).toNat = n := by
  rw [Char.ofNat, dif_pos h]
  rfl

/-- C10: converting a received byte sequence to text with `bytes_to_str`
(per-byte `chr`) and back with `str_to_bytes` (latin-1 encoding) restores the
original bytes, so the inbound byte-to-text conversion is lossless. -/
theorem bytes_to_str_roundtrip (d : List Nat) (h : ∀ b ∈ d, b < 256) :
    str_to_bytes (bytes_to_str d) = some d := by
  unfold str_to_bytes bytes_to_str
  have hval : ∀ b ∈ d, (b : Nat).isValidChar := by
    intro b hb
    exact Or.inl (by have := h b hb; omega)
  have hall : (d.map Char.ofNat).all (fun c => c.toNat < 256) = true := by
    simp only [List.all_eq_true]
    intro c hc
    obtain ⟨b, hb, rfl⟩ := List.mem_map.mp hc
    simp only [decide_eq_true_eq]
    rw [toNat_ofNat_valid (hval b hb)]
    exact h b hb
  rw [if_pos hall, List.map_map]
  have hid : ∀ b ∈ d, (Char.toNat ∘ Char.ofNat) b = id b := by
    intro b hb
    simp only [Function.comp, id]
    exact toNat_ofNat_valid (hval b hb)
  rw [List.map_congr_left hid, List.map_id]

/-- Witness for `bytes_to_str_roundtrip` on a concrete received byte burst. -/
theorem bytes_to_str_roundtrip_witness :
    str_to_bytes (bytes_to_str [72, 13, 10, 255]) = some [72, 13, 10, 255] :=
  bytes_to_str_roundtrip [72, 13, 10, 255] (by decide)


theorem utf8EncodeChar_ne_nil (n : Nat) : utf8EncodeChar n ≠ [] := by
  unfold utf8EncodeChar
  split_ifs <;> simp

theorem utf8DecodeOne_encodeChar (n : Nat) (h : n.isValidChar) (rest : List Nat) :
    utf8DecodeOne (utf8EncodeChar n ++ rest) = some (n, rest) := by
  have hlt : n < 0x110000 := by rcases h with h1 | ⟨h1, h2⟩ <;> omega
  have hsur : ¬(0xD800 ≤ n ∧ n < 0xE000) := by rcases h with h1 | ⟨h1, h2⟩ <;> omega
  by_cases c1 : n < 0x80
  · rw [utf8EncodeChar, if_pos c1]
    simp only [List.cons_append, List.nil_append]
    unfold utf8DecodeOne
    simp only []
    rw [if_pos c1]
  · by_cases c2 : n < 0x800
    · rw [utf8EncodeChar, if_neg c1, if_pos c2]
      simp only [List.cons_append, List.nil_append]
      unfold utf8DecodeOne
      simp only []
      rw [if_neg (by omega), if_neg (by omega), if_pos (by omega),
        if_pos (show 0x80 ≤ 0x80 + n % 0x40 ∧ 0x80 + n % 0x40 < 0xC0 by omega),
        if_pos (by omega)]
      have e5 : (0xC0 + n / 0x40 - 0xC0) * 0x40 + (0x80 + n % 0x40 - 0x80) = n := by
        omega
      rw [e5]
    · by_cases c3 : n < 0x10000
      · rw [utf8EncodeChar, if_neg c1, if_neg c2, if_pos c3]
        simp only [List.cons_append, List.nil_append]
        unfold utf8DecodeOne
        simp only []
        rw [if_neg (by omega), if_neg (by omega), if_neg (by omega),
          if_pos (by omega),
          if_pos (show (0x80 ≤ 0x80 + n / 0x40 % 0x40 ∧ 0x80 + n / 0x40 % 0x40 < 0xC0)
              ∧ (0x80 ≤ 0x80 + n % 0x40 ∧ 0x80 + n % 0x40 < 0xC0) by omega)]
        have e5 : (0xE0 + n / 0x1000 - 0xE0) * 0x1000 +
            (0x80 + n / 0x40 % 0x40 - 0x80) * 0x40 + (0x80 + n % 0x40 - 0x80) = n := by
          omega
        rw [e5, if_pos ⟨by omega, hsur⟩]
      · rw [utf8EncodeChar, if_neg c1, if_neg c2, if_neg c3]
        simp only [List.cons_append, List.nil_append]
        unfold utf8DecodeOne
        simp only []
        rw [if_neg (by omega), if_neg (by omega), if_neg (by omega),
          if_neg (by omega), if_pos (by omega),
          if_pos (show ((0x80 ≤ 0x80 + n / 0x1000 % 0x40 ∧ 0x80 + n / 0x1000 % 0x40 < 0xC0)
              ∧ (0x80 ≤ 0x80 + n / 0x40 % 0x40 ∧ 0x80 + n / 0x40 % 0x40 < 0xC0)
              ∧ (0x80 ≤ 0x80 + n % 0x40 ∧ 0x80 + n % 0x40 < 0xC0)) by omega)]
        have e5 : (0xF0 + n / 0x40000 - 0xF0) * 0x40000 +
            (0x80 + n / 0x1000 % 0x40 - 0x80) * 0x1000 +
            (0x80 + n / 0x40 % 0x40 - 0x80) * 0x40 + (0x80 + n % 0x40 - 0x80) = n := by
          omega
        rw [e5, if_pos ⟨by omega, hlt⟩]

theorem utf8DecodeLoop_encode : ∀ (cs : List Char) (fuel : Nat),
    (utf8Encode cs).length ≤ fuel →
    utf8DecodeLoop fuel (utf8Encode cs) = some (cs.map Char.toNat) := by
  intro cs
  induction cs with
  | nil =>
    intro fuel h
    have he : utf8Encode [] = [] := rfl
    rw [he]
    cases fuel <;> rfl
  | cons c cs ih =>
    intro fuel h
    have hv : (Char.toNat c).isValidChar := c.valid
    have hE : utf8Encode (c :: cs) = utf8EncodeChar (Char.toNat c) ++ utf8Encode cs := by
      simp [utf8Encode]
    cases hEC : utf8EncodeChar (Char.toNat c) with
    | nil => exact absurd hEC (utf8EncodeChar_ne_nil _)
    | cons b0 tl =>
      rw [hE, hEC] at h ⊢
      cases fuel with
      | zero => simp at h
      | succ f =>
        simp only [List.cons_append, utf8DecodeLoop, List.append_eq]
        have hstep := utf8DecodeOne_encodeChar (Char.toNat c) hv (utf8Encode cs)
        rw [hEC] at hstep
        simp only [List.cons_append, List.append_eq] at hstep
        rw [hstep]
        simp only []
        rw [ih f ?_]
        · rfl
        · simp only [List.cons_append, List.length_cons, List.length_append] at h
          omega

theorem utf8Decode_encode (s : List Char) :
    utf8DecodeNums (utf8Encode s) = some (s.map Char.toNat) :=
  utf8DecodeLoop_encode s (utf8Encode s).length (Nat.le_refl _)

/-- C6: the upload data path stores the UTF-8 encoding of the editor text
under the target name and the download data path fetches and decodes those
bytes; uploading a document and immediately downloading it restores the text
(as its sequence of unicode code points) exactly. -/
theorem upload_download_roundtrip (fs : RemoteFS) (name : List Char)
    (content : List Char) :
    download_content (upload_content fs name content) name
      = some (content.map Char.toNat) := by
  unfold upload_content download_content ampy_put ampy_get
  rw [if_pos rfl]
  exact utf8Decode_encode content
